import Mathlib

/-!
The header `common/common.h` of tinyusb: byte packing, min/max, alignment, integer log2.

Shallow embedding of the macros and inline functions of
`src/tinyusb/common/common.h`.

Machine integers are natural numbers; a value of type `uintN_t` is a `Nat`
below `2^N`, and every operation that can leave that range in C is reduced
modulo `2^N` explicitly.  Operands narrower than `int` are promoted to the
32-bit signed `int` before arithmetic; that arithmetic is carried out in `Int`
and brought back into range by `wrap_int32` (two's complement).
-/

namespace TinyUsb

/-! ## Machine arithmetic -/

/-- Two's complement reduction of a mathematical integer to the range of the
32-bit signed `int`, `-2^31 .. 2^31 - 1`. -/
def wrap_int32 (x : Int) : Int := (x + 2 ^ 31) % 2 ^ 32 - 2 ^ 31

/-- Conversion of an `int` to `uint32_t`: reduction modulo `2^32`. -/
def int_to_u32 (x : Int) : Nat := (x % 2 ^ 32).toNat

/-- Bitwise complement of a 32-bit unsigned value, `~x`. -/
def not32 (x : Nat) : Nat := (2 ^ 32 - 1) - x % 2 ^ 32

/-! ## Macros -/

/-- Macro `#define U16_HIGH_U8(u16) ((uint8_t) (((u16) > 8) & 0x00ff))`.
The operator in the source is the comparison `>`, whose value is `1` or `0`. -/
def U16_HIGH_U8 (u16 : Nat) : Nat := ((if u16 > 8 then 1 else 0) &&& 0x00ff) % 256

/-- Macro `#define U16_LOW_U8(u16) ((uint8_t) ((u16) & 0x00ff))`. -/
def U16_LOW_U8 (u16 : Nat) : Nat := (u16 &&& 0x00ff) % 256

/-- Macro `#define U16_TO_U8S_BE(u16) U16_HIGH_U8(u16), U16_LOW_U8(u16)`:
the comma separated list is the ordered list of its items. -/
def U16_TO_U8S_BE (u16 : Nat) : List Nat := [U16_HIGH_U8 u16, U16_LOW_U8 u16]

/-- Macro `#define U16_TO_U8S_LE(u16) U16_LOW_U8(u16), U16_HIGH_U8(u16)`. -/
def U16_TO_U8S_LE (u16 : Nat) : List Nat := [U16_LOW_U8 u16, U16_HIGH_U8 u16]

/-- Macro `#define U32_B1_U8(u32) ((uint8_t) (((u32) > 24) & 0x000000ff)) // MSB`. -/
def U32_B1_U8 (u32 : Nat) : Nat := ((if u32 > 24 then 1 else 0) &&& 0x000000ff) % 256

/-- Macro `#define U32_B2_U8(u32) ((uint8_t) (((u32) > 16) & 0x000000ff))`. -/
def U32_B2_U8 (u32 : Nat) : Nat := ((if u32 > 16 then 1 else 0) &&& 0x000000ff) % 256

/-- Macro `#define U32_B3_U8(u32) ((uint8_t) (((u32) >  8) & 0x000000ff))`. -/
def U32_B3_U8 (u32 : Nat) : Nat := ((if u32 > 8 then 1 else 0) &&& 0x000000ff) % 256

/-- Macro `#define U32_B4_U8(u32) ((uint8_t) ((u32) & 0x000000ff)) // LSB`. -/
def U32_B4_U8 (u32 : Nat) : Nat := (u32 &&& 0x000000ff) % 256

/-- Macro `#define U32_TO_U8S_BE(u32) U32_B1_U8(u32), U32_B2_U8(u32), U32_B3_U8(u32), U32_B4_U8(u32)`. -/
def U32_TO_U8S_BE (u32 : Nat) : List Nat :=
  [U32_B1_U8 u32, U32_B2_U8 u32, U32_B3_U8 u32, U32_B4_U8 u32]

/-- Macro `#define U32_TO_U8S_LE(u32) U32_B4_U8(u32), U32_B3_U8(u32), U32_B2_U8(u32), U32_B1_U8(u32)`. -/
def U32_TO_U8S_LE (u32 : Nat) : List Nat :=
  [U32_B4_U8 u32, U32_B3_U8 u32, U32_B2_U8 u32, U32_B1_U8 u32]

/-! ## Conversion -/

/-- Body `return (b1 << 24) + (b2 << 16) + (b3 << 8) + b4;`
The `uint8_t` operands are promoted to `int`; each shift and each partial sum
is an `int`, and the final sum is converted to the `uint32_t` return type. -/
def u32_from_u8 (b1 b2 b3 b4 : Nat) : Nat :=
  let s1 : Int := wrap_int32 (((b1 <<< 24 : Nat) : Int))
  let s2 : Int := wrap_int32 (((b2 <<< 16 : Nat) : Int))
  let s3 : Int := wrap_int32 (((b3 <<< 8 : Nat) : Int))
  let t1 : Int := wrap_int32 (s1 + s2)
  let t2 : Int := wrap_int32 (t1 + s3)
  let t3 : Int := wrap_int32 (t2 + (b4 : Int))
  int_to_u32 t3

/-- Largest value of the 32-bit signed `int`. -/
def INT32_MAX : Int := 2 ^ 31 - 1

/-- Smallest value of the 32-bit signed `int`. -/
def INT32_MIN : Int := -(2 ^ 31)

/-- The mathematical value of every operation of
`(b1 << 24) + (b2 << 16) + (b3 << 8) + b4`, in evaluation order: the three
shifts, then the three sums, each sum taken on the `int` values of its
operands.  The last entry is the sum that `u32_from_u8` converts and returns. -/
def u32_from_u8_steps (b1 b2 b3 b4 : Nat) : List Int :=
  let s1 : Int := ((b1 <<< 24 : Nat) : Int)
  let s2 : Int := ((b2 <<< 16 : Nat) : Int)
  let s3 : Int := ((b3 <<< 8 : Nat) : Int)
  let t1 : Int := wrap_int32 s1 + wrap_int32 s2
  let t2 : Int := wrap_int32 t1 + wrap_int32 s3
  let t3 : Int := wrap_int32 t2 + (b4 : Int)
  [s1, s2, s3, t1, t2, t3]

/-- An operation stays within `int` when its mathematical value is representable. -/
def in_int32 (x : Int) : Bool := decide (INT32_MIN ≤ x) && decide (x ≤ INT32_MAX)

/-! ## Min, Max -/

/-- Body `return (x < y) ? x : y;` on `uint8_t`. -/
def min8_of (x y : Nat) : Nat := if x < y then x else y

/-- Body `return (x < y) ? x : y;` on `uint16_t`. -/
def min16_of (x y : Nat) : Nat := if x < y then x else y

/-- Body `return (x < y) ? x : y;` on `uint32_t`. -/
def min32_of (x y : Nat) : Nat := if x < y then x else y

/-- Body `return (x > y) ? x : y;` on `uint32_t`. -/
def max32_of (x y : Nat) : Nat := if x > y then x else y

/-! ## Align -/

/-- Body `return (value & 0xFFFFFFE0UL);` -/
def align32 (value : Nat) : Nat := (value &&& 0xFFFFFFE0) % 2 ^ 32

/-- Body `return (value & 0xFFFFFFF0UL);` -/
def align16 (value : Nat) : Nat := (value &&& 0xFFFFFFF0) % 2 ^ 32

/-- Body `return value & (~(alignment-1));`
`alignment - 1` is unsigned 32-bit subtraction, so it wraps to `2^32 - 1`
when `alignment` is `0`. -/
def align_n (alignment value : Nat) : Nat :=
  value &&& not32 ((alignment + 2 ^ 32 - 1) % 2 ^ 32)

/-- Body `return (value & 0xFFFFF000UL);` -/
def align4k (value : Nat) : Nat := (value &&& 0xFFFFF000) % 2 ^ 32

/-- Body `return (value & 0xFFFUL);` -/
def offset4k (value : Nat) : Nat := (value &&& 0xFFF) % 2 ^ 32

/-! ## Mathematics -/

/-- The loop `while (value >>= 1) result++;`: `value` is shifted first,
the body runs when the shifted value is nonzero; `result` is a `uint8_t`. -/
def log2_loop (value result : Nat) : Nat :=
  if h : value >>> 1 = 0 then result
  else log2_loop (value >>> 1) ((result + 1) % 256)
termination_by value
decreasing_by
  simp only [Nat.shiftRight_eq_div_pow] at h ⊢
  omega

/-- Body `uint8_t result = 0; while (value >>= 1) result++; return result;` -/
def log2_of (value : Nat) : Nat := log2_loop value 0

/-- Number of times the body of the loop of `log2_of` runs. -/
def log2_iters (value : Nat) : Nat :=
  if h : value >>> 1 = 0 then 0
  else log2_iters (value >>> 1) + 1
termination_by value
decreasing_by
  simp only [Nat.shiftRight_eq_div_pow] at h ⊢
  omega

/-! ## Auxiliary facts -/

/-- A sum of a multiple of `2^i` and a value below `2^i` is their bitwise or. -/
theorem shl_add_eq_or (a b i : Nat) (hb : b < 2 ^ i) :
    a * 2 ^ i + b = (a * 2 ^ i) ||| b := by
  have h := Nat.mul_add_lt_is_or hb a
  rw [Nat.mul_comm] at h
  exact h

/-- Packing four bytes with `|` is the same as the positional sum. -/
theorem or_pack_eq_sum (b1 b2 b3 b4 : Nat) (h2 : b2 < 256) (h3 : b3 < 256) (h4 : b4 < 256) :
    ((b1 <<< 24) ||| (b2 <<< 16) ||| (b3 <<< 8) ||| b4) =
      b1 * 2 ^ 24 + b2 * 2 ^ 16 + b3 * 2 ^ 8 + b4 := by
  simp only [Nat.shiftLeft_eq]
  have e1 : b1 * 2 ^ 24 ||| b2 * 2 ^ 16 = b1 * 2 ^ 24 + b2 * 2 ^ 16 :=
    (shl_add_eq_or b1 (b2 * 2 ^ 16) 24 (by omega)).symm
  have e2 : (b1 * 2 ^ 24 + b2 * 2 ^ 16) ||| b3 * 2 ^ 8 =
      b1 * 2 ^ 24 + b2 * 2 ^ 16 + b3 * 2 ^ 8 := by
    have h := shl_add_eq_or (b1 * 2 ^ 8 + b2) (b3 * 2 ^ 8) 16 (by omega)
    have e : (b1 * 2 ^ 8 + b2) * 2 ^ 16 = b1 * 2 ^ 24 + b2 * 2 ^ 16 := by omega
    rw [e] at h
    exact h.symm
  have e3 : (b1 * 2 ^ 24 + b2 * 2 ^ 16 + b3 * 2 ^ 8) ||| b4 =
      b1 * 2 ^ 24 + b2 * 2 ^ 16 + b3 * 2 ^ 8 + b4 := by
    have h := shl_add_eq_or (b1 * 2 ^ 16 + b2 * 2 ^ 8 + b3) b4 8 (by omega)
    have e : (b1 * 2 ^ 16 + b2 * 2 ^ 8 + b3) * 2 ^ 8 =
        b1 * 2 ^ 24 + b2 * 2 ^ 16 + b3 * 2 ^ 8 := by omega
    rw [e] at h
    exact h.symm
  rw [e1, e2, e3]

/-- Wrapping to `int` changes a value by a multiple of `2^32`. -/
theorem wrap_int32_eq (x : Int) : ∃ k : Int, wrap_int32 x = x + k * 2 ^ 32 := by
  refine ⟨-((x + 2 ^ 31) / 2 ^ 32), ?_⟩
  unfold wrap_int32
  omega

/-- The value computed by `u32_from_u8` is the positional sum of its bytes. -/
theorem u32_from_u8_sum (b1 b2 b3 b4 : Nat)
    (h1 : b1 < 256) (h2 : b2 < 256) (h3 : b3 < 256) (h4 : b4 < 256) :
    u32_from_u8 b1 b2 b3 b4 = b1 * 2 ^ 24 + b2 * 2 ^ 16 + b3 * 2 ^ 8 + b4 := by
  simp only [u32_from_u8, int_to_u32, Nat.shiftLeft_eq]
  obtain ⟨k1, e1⟩ := wrap_int32_eq ((b1 * 2 ^ 24 : Nat) : Int)
  obtain ⟨k2, e2⟩ := wrap_int32_eq ((b2 * 2 ^ 16 : Nat) : Int)
  obtain ⟨k3, e3⟩ := wrap_int32_eq ((b3 * 2 ^ 8 : Nat) : Int)
  rw [e1, e2, e3]
  obtain ⟨k4, e4⟩ := wrap_int32_eq
    (((b1 * 2 ^ 24 : Nat) : Int) + k1 * 2 ^ 32 + (((b2 * 2 ^ 16 : Nat) : Int) + k2 * 2 ^ 32))
  rw [e4]
  obtain ⟨k5, e5⟩ := wrap_int32_eq
    (((b1 * 2 ^ 24 : Nat) : Int) + k1 * 2 ^ 32 + (((b2 * 2 ^ 16 : Nat) : Int) + k2 * 2 ^ 32)
      + k4 * 2 ^ 32 + (((b3 * 2 ^ 8 : Nat) : Int) + k3 * 2 ^ 32))
  rw [e5]
  obtain ⟨k6, e6⟩ := wrap_int32_eq
    (((b1 * 2 ^ 24 : Nat) : Int) + k1 * 2 ^ 32 + (((b2 * 2 ^ 16 : Nat) : Int) + k2 * 2 ^ 32)
      + k4 * 2 ^ 32 + (((b3 * 2 ^ 8 : Nat) : Int) + k3 * 2 ^ 32) + k5 * 2 ^ 32 + (b4 : Int))
  rw [e6]
  push_cast
  omega

/-- For a power of two `2^k` within 32 bits, `align_n` clears the low `k` bits. -/
theorem align_n_pow2_shift (k v : Nat) (hk : k < 32) (hv : v < 2 ^ 32) :
    align_n (2 ^ k) v = (v >>> k) <<< k := by
  have hlt : 2 ^ k - 1 < 2 ^ 32 := by
    have : 2 ^ k < 2 ^ 32 := Nat.pow_lt_pow_right (by decide) hk
    omega
  have hpos : 0 < 2 ^ k := Nat.two_pow_pos k
  have hsub : (2 ^ k + 2 ^ 32 - 1) % 2 ^ 32 = 2 ^ k - 1 := by omega
  have hmask : not32 ((2 ^ k + 2 ^ 32 - 1) % 2 ^ 32) = 2 ^ 32 - ((2 ^ k - 1) + 1) := by
    unfold not32
    rw [hsub, Nat.mod_eq_of_lt hlt]
    omega
  unfold align_n
  rw [hmask]
  apply Nat.eq_of_testBit_eq
  intro i
  rw [Nat.testBit_land, Nat.testBit_two_pow_sub_succ hlt, Nat.testBit_two_pow_sub_one,
    Nat.testBit_shiftLeft, Nat.testBit_shiftRight]
  by_cases hik : i < k
  · have hge : ¬ i ≥ k := by omega
    simp [hik, hge]
  · have hge : i ≥ k := by omega
    have hidx : k + (i - k) = i := by omega
    by_cases hi : i < 32
    · simp [hik, hge, hi, hidx]
    · have hbig : v < 2 ^ i :=
        Nat.lt_of_lt_of_le hv (Nat.pow_le_pow_right (by decide) (by omega))
      simp [hik, hge, hi, hidx, Nat.testBit_lt_two_pow hbig]

/-- For a power of two `2^k` within 32 bits, `align_n` subtracts the remainder. -/
theorem align_n_pow2_sub (k v : Nat) (hk : k < 32) (hv : v < 2 ^ 32) :
    align_n (2 ^ k) v = v - v % 2 ^ k := by
  rw [align_n_pow2_shift k v hk hv, Nat.shiftLeft_eq, Nat.shiftRight_eq_div_pow]
  have h := Nat.div_add_mod v (2 ^ k)
  rw [Nat.mul_comm] at h
  omega

/-- The number of iterations of the loop locates the most significant set bit. -/
theorem log2_iters_bounds (v : Nat) (hv : 0 < v) :
    2 ^ log2_iters v ≤ v ∧ v < 2 ^ (log2_iters v + 1) := by
  induction v using Nat.strong_induction_on with
  | _ v ih =>
    rw [log2_iters]
    split
    · rename_i h
      simp only [Nat.shiftRight_eq_div_pow] at h
      have : v = 1 := by omega
      subst this
      decide
    · rename_i h
      simp only [Nat.shiftRight_eq_div_pow, Nat.pow_one] at h ⊢
      have hlt : v / 2 < v := by omega
      have hpos : 0 < v / 2 := by omega
      obtain ⟨h1, h2⟩ := ih (v / 2) hlt hpos
      have e1 : 2 ^ (log2_iters (v / 2) + 1) = 2 ^ log2_iters (v / 2) * 2 := Nat.pow_succ _ _
      have e2 : 2 ^ (log2_iters (v / 2) + 1 + 1) = 2 ^ (log2_iters (v / 2) + 1) * 2 :=
        Nat.pow_succ _ _
      constructor <;> omega

/-- The loop of `log2_of` adds the number of iterations to the 8-bit counter. -/
theorem log2_loop_eq (v r : Nat) :
    log2_loop v r = if log2_iters v = 0 then r else (r + log2_iters v) % 256 := by
  induction v using Nat.strong_induction_on generalizing r with
  | _ v ih =>
    rw [log2_loop, log2_iters]
    split
    · simp
    · rename_i h
      have hlt : v >>> 1 < v := by
        simp only [Nat.shiftRight_eq_div_pow] at h ⊢
        omega
      rw [ih (v >>> 1) hlt]
      simp only [Nat.add_one_ne_zero, if_false]
      split
      · rename_i h0
        rw [h0]
      · omega

/-- A 32-bit value needs at most 31 iterations. -/
theorem log2_iters_le (v : Nat) (hv : v < 2 ^ 32) : log2_iters v ≤ 31 := by
  by_cases h0 : v = 0
  · subst h0
    rw [log2_iters]
    simp
  · have hb := (log2_iters_bounds v (by omega)).1
    have hlt : 2 ^ log2_iters v < 2 ^ 32 := Nat.lt_of_le_of_lt hb hv
    have := (Nat.pow_lt_pow_iff_right (by decide : 1 < 2)).1 hlt
    omega

/-- On 32-bit values the result of `log2_of` is the number of iterations. -/
theorem log2_of_eq_iters (v : Nat) (hv : v < 2 ^ 32) : log2_of v = log2_iters v := by
  have hle := log2_iters_le v hv
  unfold log2_of
  rw [log2_loop_eq]
  split
  · rename_i h0
    rw [h0]
  · omega

/-- Masking a 32-bit value leaves a 32-bit value. -/
theorem and_mod_u32 (v m : Nat) (hv : v < 2 ^ 32) : (v &&& m) % 2 ^ 32 = v &&& m :=
  Nat.mod_eq_of_lt (Nat.lt_of_le_of_lt Nat.and_le_left hv)

/-- Masking with a 32-bit constant leaves a 32-bit value. -/
theorem and_mask_mod_u32 (v m : Nat) (hm : m < 2 ^ 32) : (v &&& m) % 2 ^ 32 = v &&& m :=
  Nat.mod_eq_of_lt (Nat.lt_of_le_of_lt Nat.and_le_right hm)

/-- The page offset is the remainder modulo `4096`. -/
theorem offset4k_eq_mod (v : Nat) : offset4k v = v % 4096 := by
  unfold offset4k
  rw [and_mask_mod_u32 v 0xFFF (by decide)]
  exact Nat.and_pow_two_sub_one_eq_mod v 12

/-- The fixed mask of `align4k` is the mask `align_n` computes for `4096`. -/
theorem align4k_eq_align_n (v : Nat) : align4k v = align_n 4096 v := by
  unfold align4k align_n
  have hmask : not32 ((4096 + 2 ^ 32 - 1) % 2 ^ 32) = 0xFFFFF000 := by decide
  rw [hmask, and_mask_mod_u32 v 0xFFFFF000 (by decide)]

/-- The fixed mask of `align16` is the mask `align_n` computes for `16`. -/
theorem align16_eq_align_n (v : Nat) : align16 v = align_n 16 v := by
  unfold align16 align_n
  have hmask : not32 ((16 + 2 ^ 32 - 1) % 2 ^ 32) = 0xFFFFFFF0 := by decide
  rw [hmask, and_mask_mod_u32 v 0xFFFFFFF0 (by decide)]

/-- The fixed mask of `align32` is the mask `align_n` computes for `32`. -/
theorem align32_eq_align_n (v : Nat) : align32 v = align_n 32 v := by
  unfold align32 align_n
  have hmask : not32 ((32 + 2 ^ 32 - 1) % 2 ^ 32) = 0xFFFFFFE0 := by decide
  rw [hmask, and_mask_mod_u32 v 0xFFFFFFE0 (by decide)]

/-- On 32-bit values `align4k` subtracts the remainder modulo `4096`. -/
theorem align4k_eq_sub (v : Nat) (hv : v < 2 ^ 32) : align4k v = v - v % 4096 := by
  rw [align4k_eq_align_n]
  exact align_n_pow2_sub 12 v (by decide) hv

/-- The masks of `align4k` and `offset4k` are disjoint. -/
theorem align4k_and_offset4k (v : Nat) : align4k v &&& offset4k v = 0 := by
  unfold align4k offset4k
  rw [and_mask_mod_u32 v 0xFFFFF000 (by decide), and_mask_mod_u32 v 0xFFF (by decide),
    Nat.and_assoc, Nat.and_comm v 0xFFF, ← Nat.and_assoc 0xFFFFF000 0xFFF v]
  have hz : (0xFFFFF000 : Nat) &&& 0xFFF = 0 := by decide
  rw [hz, Nat.zero_and, Nat.and_zero]

/-- A representable value is left unchanged by the reduction to `int`. -/
theorem wrap_int32_id (x : Int) (h : in_int32 x = true) : wrap_int32 x = x := by
  simp only [in_int32, INT32_MIN, INT32_MAX, Bool.and_eq_true, decide_eq_true_eq] at h
  unfold wrap_int32
  omega

/-- The last of six listed values. -/
theorem getLastD_six (s1 s2 s3 t1 t2 t3 : Int) :
    [s1, s2, s3, t1, t2, t3].getLastD 0 = t3 := rfl

/-- The value returned by `u32_from_u8` is the conversion of the last sum. -/
theorem u32_from_u8_eq_last_step (b1 b2 b3 b4 : Nat) :
    u32_from_u8 b1 b2 b3 b4 =
      int_to_u32 (wrap_int32 ((u32_from_u8_steps b1 b2 b3 b4).getLastD 0)) := by
  unfold u32_from_u8 u32_from_u8_steps
  rw [getLastD_six]

/-- When the top byte is below `0x80`, no operation of `u32_from_u8` leaves `int`. -/
theorem u32_from_u8_steps_in_range (b1 b2 b3 b4 : Nat)
    (h1 : b1 < 128) (h2 : b2 < 256) (h3 : b3 < 256) (h4 : b4 < 256) :
    (u32_from_u8_steps b1 b2 b3 b4).all in_int32 = true := by
  have r1 : in_int32 ((b1 <<< 24 : Nat) : Int) = true := by
    simp only [in_int32, INT32_MIN, INT32_MAX, Bool.and_eq_true, decide_eq_true_eq,
      Nat.shiftLeft_eq]
    omega
  have r2 : in_int32 ((b2 <<< 16 : Nat) : Int) = true := by
    simp only [in_int32, INT32_MIN, INT32_MAX, Bool.and_eq_true, decide_eq_true_eq,
      Nat.shiftLeft_eq]
    omega
  have r3 : in_int32 ((b3 <<< 8 : Nat) : Int) = true := by
    simp only [in_int32, INT32_MIN, INT32_MAX, Bool.and_eq_true, decide_eq_true_eq,
      Nat.shiftLeft_eq]
    omega
  have r4 : in_int32 (((b1 <<< 24 : Nat) : Int) + ((b2 <<< 16 : Nat) : Int)) = true := by
    simp only [in_int32, INT32_MIN, INT32_MAX, Bool.and_eq_true, decide_eq_true_eq,
      Nat.shiftLeft_eq]
    omega
  have r5 : in_int32 (((b1 <<< 24 : Nat) : Int) + ((b2 <<< 16 : Nat) : Int) +
      ((b3 <<< 8 : Nat) : Int)) = true := by
    simp only [in_int32, INT32_MIN, INT32_MAX, Bool.and_eq_true, decide_eq_true_eq,
      Nat.shiftLeft_eq]
    omega
  have r6 : in_int32 (((b1 <<< 24 : Nat) : Int) + ((b2 <<< 16 : Nat) : Int) +
      ((b3 <<< 8 : Nat) : Int) + (b4 : Int)) = true := by
    simp only [in_int32, INT32_MIN, INT32_MAX, Bool.and_eq_true, decide_eq_true_eq,
      Nat.shiftLeft_eq]
    omega
  simp only [u32_from_u8_steps, List.all_cons, List.all_nil, Bool.and_true,
    wrap_int32_id _ r1, wrap_int32_id _ r2, wrap_int32_id _ r3, wrap_int32_id _ r4,
    wrap_int32_id _ r5, r1, r2, r3, r4, r5, r6, Bool.and_self]

/-- When the top byte is `0x80` or more, the first shift leaves `int`. -/
theorem u32_from_u8_shift_out_of_range (b1 b2 b3 b4 : Nat) (h1 : 128 ≤ b1) :
    (u32_from_u8_steps b1 b2 b3 b4).all in_int32 = false := by
  have r1 : in_int32 ((b1 <<< 24 : Nat) : Int) = false := by
    simp only [in_int32, INT32_MIN, INT32_MAX, Bool.and_eq_false_iff, decide_eq_false_iff_not,
      Nat.shiftLeft_eq]
    right
    omega
  simp only [u32_from_u8_steps, List.all_cons, r1, Bool.false_and]

/-! ## Claims -/

/-- C1: for bytes `b1 b2 b3 b4`, `u32_from_u8` returns
`(b1<<24) | (b2<<16) | (b3<<8) | b4`, which is `b1*2^24 + b2*2^16 + b3*2^8 + b4`,
a 32-bit value whose most significant byte is `b1`; adding instead of or-ing
gives the same result. -/
theorem u32_from_u8_spec (b1 b2 b3 b4 : Nat)
    (h1 : b1 < 256) (h2 : b2 < 256) (h3 : b3 < 256) (h4 : b4 < 256) :
    u32_from_u8 b1 b2 b3 b4 = ((b1 <<< 24) ||| (b2 <<< 16) ||| (b3 <<< 8) ||| b4) ∧
    u32_from_u8 b1 b2 b3 b4 = b1 * 2 ^ 24 + b2 * 2 ^ 16 + b3 * 2 ^ 8 + b4 ∧
    u32_from_u8 b1 b2 b3 b4 < 2 ^ 32 ∧
    u32_from_u8 b1 b2 b3 b4 / 2 ^ 24 = b1 := by
  have hs := u32_from_u8_sum b1 b2 b3 b4 h1 h2 h3 h4
  refine ⟨?_, hs, ?_, ?_⟩
  · rw [hs, or_pack_eq_sum b1 b2 b3 b4 h2 h3 h4]
  · rw [hs]; omega
  · rw [hs]; omega

/-- Witness for C1 at the bytes `0xff 0x34 0x56 0x78`. -/
theorem u32_from_u8_spec_witness :
    u32_from_u8 0xff 0x34 0x56 0x78 = ((0xff <<< 24) ||| (0x34 <<< 16) ||| (0x56 <<< 8) ||| 0x78) ∧
    u32_from_u8 0xff 0x34 0x56 0x78 = 0xff * 2 ^ 24 + 0x34 * 2 ^ 16 + 0x56 * 2 ^ 8 + 0x78 ∧
    u32_from_u8 0xff 0x34 0x56 0x78 < 2 ^ 32 ∧
    u32_from_u8 0xff 0x34 0x56 0x78 / 2 ^ 24 = 0xff :=
  u32_from_u8_spec 0xff 0x34 0x56 0x78 (by decide) (by decide) (by decide) (by decide)

/-- C2: the round trip fails in the code.  Splitting
`u32_from_u8 0x12 0x34 0x56 0x78 = 0x12345678` with `U32_TO_U8S_BE` gives
`[1, 1, 1, 0x78]` and not `[0x12, 0x34, 0x56, 0x78]`, because the three high
byte macros compare with `>` where a shift `>>` is meant. -/
theorem roundtrip_be_fails :
    U32_TO_U8S_BE (u32_from_u8 0x12 0x34 0x56 0x78) = [1, 1, 1, 0x78] ∧
    U32_TO_U8S_BE (u32_from_u8 0x12 0x34 0x56 0x78) ≠ [0x12, 0x34, 0x56, 0x78] := by
  decide

/-- C3: `U32_TO_U8S_BE` does not return the bytes of its argument.  At
`0x12345678` the code gives `[1, 1, 1, 0x78]`, while the bytes most significant
first, `[(v>>24)&0xff, (v>>16)&0xff, (v>>8)&0xff, v&0xff]`, are
`[0x12, 0x34, 0x56, 0x78]`. -/
theorem U32_TO_U8S_BE_fails :
    U32_TO_U8S_BE 0x12345678 = [1, 1, 1, 0x78] ∧
    [(0x12345678 >>> 24) &&& 0xff, (0x12345678 >>> 16) &&& 0xff,
      (0x12345678 >>> 8) &&& 0xff, 0x12345678 &&& 0xff] = [0x12, 0x34, 0x56, 0x78] ∧
    U32_TO_U8S_BE 0x12345678 ≠ [0x12, 0x34, 0x56, 0x78] := by
  decide

/-- C4: the little-endian splitters list the same items as the big-endian ones
in reversed order, for every argument; but the items are not the bytes of the
argument: at `0x12345678` the code gives `[0x78, 1, 1, 1]` and not
`[0x78, 0x56, 0x34, 0x12]`. -/
theorem U32_TO_U8S_LE_fails :
    (∀ v : Nat, U32_TO_U8S_LE v = (U32_TO_U8S_BE v).reverse) ∧
    (∀ v : Nat, U16_TO_U8S_LE v = (U16_TO_U8S_BE v).reverse) ∧
    U32_TO_U8S_LE 0x12345678 = [0x78, 1, 1, 1] ∧
    U32_TO_U8S_LE 0x12345678 ≠ [0x78, 0x56, 0x34, 0x12] := by
  refine ⟨fun v => rfl, fun v => rfl, by decide, by decide⟩

/-- C5: `U16_TO_U8S_BE` does not return the two bytes of its argument.  At
`0x1234` the code gives `[1, 0x34]`, and `1 * 256 + 0x34` is not `0x1234`;
the bytes most significant first are `[0x12, 0x34]`. -/
theorem U16_TO_U8S_BE_fails :
    U16_TO_U8S_BE 0x1234 = [1, 0x34] ∧
    [(0x1234 >>> 8) &&& 0xff, 0x1234 &&& 0xff] = [0x12, 0x34] ∧
    U16_TO_U8S_BE 0x1234 ≠ [0x12, 0x34] ∧
    U16_HIGH_U8 0x1234 * 256 + U16_LOW_U8 0x1234 ≠ 0x1234 := by
  decide

/-- C6 as stated fails: with the sum taken modulo `2^32`, aligning `0xFFFFF005`
down to `4096` gives `0xFFFFF000`, the sum `0xFFFFF000 + 4096` wraps to `0`,
and `0xFFFFF005 < 0` is false. -/
theorem align_n_upper_bound_wraps :
    align_n 4096 0xFFFFF005 = 0xFFFFF000 ∧
    (align_n 4096 0xFFFFF005 + 4096) % 2 ^ 32 = 0 ∧
    ¬ (align_n 4096 0xFFFFF005 ≤ 0xFFFFF005 ∧
        0xFFFFF005 < (align_n 4096 0xFFFFF005 + 4096) % 2 ^ 32) := by
  decide

/-- C6, amended: for a 32-bit `v` and a power of two `a = 2^k`, `k ≤ 31`,
`align_n a v ≤ v < align_n a v + a` where the sum is the exact sum of natural
numbers; the same holds for the sum modulo `2^32` whenever that sum does not
wrap, that is when `align_n a v + a < 2^32`. -/
theorem align_n_bounds (k v : Nat) (hk : k < 32) (hv : v < 2 ^ 32) :
    align_n (2 ^ k) v ≤ v ∧ v < align_n (2 ^ k) v + 2 ^ k ∧
    (align_n (2 ^ k) v + 2 ^ k < 2 ^ 32 →
      v < (align_n (2 ^ k) v + 2 ^ k) % 2 ^ 32) := by
  have hpos : 0 < 2 ^ k := Nat.two_pow_pos k
  have hmod : v % 2 ^ k < 2 ^ k := Nat.mod_lt v hpos
  have hle : v % 2 ^ k ≤ v := Nat.mod_le v (2 ^ k)
  rw [align_n_pow2_sub k v hk hv]
  refine ⟨by omega, by omega, ?_⟩
  intro h
  rw [Nat.mod_eq_of_lt h]
  omega

/-- Witness for C6 (amended) at `v = 0xFFFFF005`, `a = 2^12 = 4096`. -/
theorem align_n_bounds_witness :
    align_n (2 ^ 12) 0xFFFFF005 ≤ 0xFFFFF005 ∧
    0xFFFFF005 < align_n (2 ^ 12) 0xFFFFF005 + 2 ^ 12 ∧
    (align_n (2 ^ 12) 0xFFFFF005 + 2 ^ 12 < 2 ^ 32 →
      0xFFFFF005 < (align_n (2 ^ 12) 0xFFFFF005 + 2 ^ 12) % 2 ^ 32) :=
  align_n_bounds 12 0xFFFFF005 (by decide) (by decide)

/-- C7: for a 32-bit `v` and a power of two `a = 2^k`, `k ≤ 31`,
`align_n a v = v & ~(a-1)` is a multiple of `a`, equals `v - (v mod a)`, and is
the largest multiple of `a` not exceeding `v`; aligning `0x1005` down to `4096`
gives `0x1000`. -/
theorem align_n_spec (k v : Nat) (hk : k < 32) (hv : v < 2 ^ 32) :
    align_n (2 ^ k) v = v &&& not32 (2 ^ k - 1) ∧
    align_n (2 ^ k) v % 2 ^ k = 0 ∧
    align_n (2 ^ k) v = v - v % 2 ^ k ∧
    align_n (2 ^ k) v ≤ v ∧
    (∀ m : Nat, m % 2 ^ k = 0 → m ≤ v → m ≤ align_n (2 ^ k) v) ∧
    align_n 4096 0x1005 = 0x1000 := by
  have hpos : 0 < 2 ^ k := Nat.two_pow_pos k
  have hlt : 2 ^ k < 2 ^ 32 := Nat.pow_lt_pow_right (by decide) hk
  have hsub : (2 ^ k + 2 ^ 32 - 1) % 2 ^ 32 = 2 ^ k - 1 := by omega
  have hle : v % 2 ^ k ≤ v := Nat.mod_le v (2 ^ k)
  have hdm := Nat.div_add_mod v (2 ^ k)
  have hval : v - v % 2 ^ k = 2 ^ k * (v / 2 ^ k) := by omega
  refine ⟨?_, ?_, align_n_pow2_sub k v hk hv, ?_, ?_, by decide⟩
  · unfold align_n
    rw [hsub]
  · rw [align_n_pow2_sub k v hk hv, hval]
    exact Nat.mul_mod_right _ _
  · rw [align_n_pow2_sub k v hk hv]
    omega
  · intro m hm hmv
    rw [align_n_pow2_sub k v hk hv, hval]
    have hmd := Nat.div_add_mod m (2 ^ k)
    rw [hm, Nat.add_zero] at hmd
    rw [← hmd]
    exact Nat.mul_le_mul_left _ (Nat.div_le_div_right hmv)

/-- Witness for C7 at `v = 0x1005`, `a = 2^12 = 4096`. -/
theorem align_n_spec_witness :
    align_n (2 ^ 12) 0x1005 = 0x1005 &&& not32 (2 ^ 12 - 1) ∧
    align_n (2 ^ 12) 0x1005 % 2 ^ 12 = 0 ∧
    align_n (2 ^ 12) 0x1005 = 0x1005 - 0x1005 % 2 ^ 12 ∧
    align_n (2 ^ 12) 0x1005 ≤ 0x1005 ∧
    (∀ m : Nat, m % 2 ^ 12 = 0 → m ≤ 0x1005 → m ≤ align_n (2 ^ 12) 0x1005) ∧
    align_n 4096 0x1005 = 0x1000 :=
  align_n_spec 12 0x1005 (by decide) (by decide)

/-- C8: for a nonzero 32-bit `v`, `r = log2_of v` is the position of the most
significant set bit: `2^r ≤ v < 2^(r+1)`; `log2_of 1 = 0`, `log2_of 2 = 1`,
`log2_of 255 = 7`, `log2_of 256 = 8`. -/
theorem log2_of_spec (v : Nat) (h0 : 0 < v) (hv : v < 2 ^ 32) :
    2 ^ log2_of v ≤ v ∧ v < 2 ^ (log2_of v + 1) ∧
    log2_of 1 = 0 ∧ log2_of 2 = 1 ∧ log2_of 255 = 7 ∧ log2_of 256 = 8 := by
  have hb := log2_iters_bounds v h0
  rw [log2_of_eq_iters v hv]
  refine ⟨hb.1, hb.2, ?_, ?_, ?_, ?_⟩ <;> simp [log2_of, log2_loop]

/-- Witness for C8 at `v = 0x12345678`. -/
theorem log2_of_spec_witness :
    2 ^ log2_of 0x12345678 ≤ 0x12345678 ∧ 0x12345678 < 2 ^ (log2_of 0x12345678 + 1) ∧
    log2_of 1 = 0 ∧ log2_of 2 = 1 ∧ log2_of 255 = 7 ∧ log2_of 256 = 8 :=
  log2_of_spec 0x12345678 (by decide) (by decide)

/-- C9: `log2_of 0` is `0`, the loop body running zero times; so
`log2_of 0 = log2_of 1`, and the result `0` does not tell the two inputs
apart. -/
theorem log2_of_zero :
    log2_of 0 = 0 ∧ log2_iters 0 = 0 ∧ log2_of 0 = log2_of 1 ∧
    (0 : Nat) ≠ 1 := by
  refine ⟨?_, ?_, ?_, by decide⟩
  · simp [log2_of, log2_loop]
  · simp [log2_iters]
  · simp [log2_of, log2_loop]

/-- C10: for 32-bit `x` and `y`, `min32_of x y + max32_of x y = x + y`, as
exact sums of natural numbers and as 32-bit sums modulo `2^32`. -/
theorem min32_add_max32 (x y : Nat) (hx : x < 2 ^ 32) (hy : y < 2 ^ 32) :
    min32_of x y + max32_of x y = x + y ∧
    (min32_of x y + max32_of x y) % 2 ^ 32 = (x + y) % 2 ^ 32 ∧
    min32_of x y < 2 ^ 32 ∧ max32_of x y < 2 ^ 32 := by
  unfold min32_of max32_of
  split <;> split <;> omega

/-- Witness for C10 at `x = 0xFFFFFFFF`, `y = 300`, where the 32-bit sum wraps. -/
theorem min32_add_max32_witness :
    min32_of 0xFFFFFFFF 300 + max32_of 0xFFFFFFFF 300 = 0xFFFFFFFF + 300 ∧
    (min32_of 0xFFFFFFFF 300 + max32_of 0xFFFFFFFF 300) % 2 ^ 32 =
      (0xFFFFFFFF + 300) % 2 ^ 32 ∧
    min32_of 0xFFFFFFFF 300 < 2 ^ 32 ∧ max32_of 0xFFFFFFFF 300 < 2 ^ 32 :=
  min32_add_max32 0xFFFFFFFF 300 (by decide) (by decide)

/-- C11: each of `min8_of`, `min16_of`, `min32_of` returns `x` if `x < y` and `y`
otherwise, for all naturals `x y` and so for all operands of its width: the
result is one of the operands, is `≤ x` and `≤ y`, and on a tie equals both;
`min16_of 300 65000 = 300`. -/
theorem min_of_spec (x y : Nat) :
    (min8_of x y = (if x < y then x else y) ∧ (min8_of x y = x ∨ min8_of x y = y) ∧
      min8_of x y ≤ x ∧ min8_of x y ≤ y ∧ min8_of x x = x) ∧
    (min16_of x y = (if x < y then x else y) ∧ (min16_of x y = x ∨ min16_of x y = y) ∧
      min16_of x y ≤ x ∧ min16_of x y ≤ y ∧ min16_of x x = x) ∧
    (min32_of x y = (if x < y then x else y) ∧ (min32_of x y = x ∨ min32_of x y = y) ∧
      min32_of x y ≤ x ∧ min32_of x y ≤ y ∧ min32_of x x = x) ∧
    min16_of 300 65000 = 300 := by
  unfold min8_of min16_of min32_of
  refine ⟨⟨rfl, ?_, ?_, ?_, by simp⟩, ⟨rfl, ?_, ?_, ?_, by simp⟩,
    ⟨rfl, ?_, ?_, ?_, by simp⟩, by decide⟩ <;> split <;> omega

/-- C12: for 32-bit `x` and `y`, `max32_of x y` is one of the two operands, and
`min32_of x y ≤ x ≤ max32_of x y` and `min32_of x y ≤ y ≤ max32_of x y`;
`max32_of 300 65000 = 65000`. -/
theorem max32_of_spec (x y : Nat) (hx : x < 2 ^ 32) (hy : y < 2 ^ 32) :
    max32_of x y = (if x > y then x else y) ∧
    (max32_of x y = x ∨ max32_of x y = y) ∧
    min32_of x y ≤ x ∧ x ≤ max32_of x y ∧
    min32_of x y ≤ y ∧ y ≤ max32_of x y ∧
    max32_of x y < 2 ^ 32 ∧
    max32_of 300 65000 = 65000 := by
  unfold min32_of max32_of
  refine ⟨rfl, ?_, ?_, ?_, ?_, ?_, ?_, by decide⟩ <;> split <;> omega

/-- Witness for C12 at `x = 300`, `y = 65000`. -/
theorem max32_of_spec_witness :
    max32_of 300 65000 = (if 300 > 65000 then 300 else 65000) ∧
    (max32_of 300 65000 = 300 ∨ max32_of 300 65000 = 65000) ∧
    min32_of 300 65000 ≤ 300 ∧ 300 ≤ max32_of 300 65000 ∧
    min32_of 300 65000 ≤ 65000 ∧ 65000 ≤ max32_of 300 65000 ∧
    max32_of 300 65000 < 2 ^ 32 ∧
    max32_of 300 65000 = 65000 :=
  max32_of_spec 300 65000 (by decide) (by decide)

/-- C13: for a 32-bit `v`, `offset4k v = v - align4k v`; equivalently
`v = align4k v + offset4k v`, the sum staying below `2^32`, and `align4k v`
and `offset4k v` have no set bit in common. -/
theorem offset4k_eq_sub_align4k (v : Nat) (hv : v < 2 ^ 32) :
    offset4k v = v - align4k v ∧
    v = align4k v + offset4k v ∧
    align4k v + offset4k v < 2 ^ 32 ∧
    (align4k v + offset4k v) % 2 ^ 32 = v ∧
    align4k v &&& offset4k v = 0 := by
  have hle : v % 4096 ≤ v := Nat.mod_le v 4096
  refine ⟨?_, ?_, ?_, ?_, align4k_and_offset4k v⟩ <;>
    rw [align4k_eq_sub v hv, offset4k_eq_mod] <;> omega

/-- Witness for C13 at `v = 0xFFFFF005`. -/
theorem offset4k_eq_sub_align4k_witness :
    offset4k 0xFFFFF005 = 0xFFFFF005 - align4k 0xFFFFF005 ∧
    0xFFFFF005 = align4k 0xFFFFF005 + offset4k 0xFFFFF005 ∧
    align4k 0xFFFFF005 + offset4k 0xFFFFF005 < 2 ^ 32 ∧
    (align4k 0xFFFFF005 + offset4k 0xFFFFF005) % 2 ^ 32 = 0xFFFFF005 ∧
    align4k 0xFFFFF005 &&& offset4k 0xFFFFF005 = 0 :=
  offset4k_eq_sub_align4k 0xFFFFF005 (by decide)

/-- C14: for every `v`, in particular every 32-bit `v`, `offset4k v` is the
remainder `v mod 4096`, so it is below `4096`; `offset4k 0x1005 = 0x5`. -/
theorem offset4k_spec (v : Nat) :
    offset4k v = v % 4096 ∧ offset4k v < 4096 ∧ offset4k 0x1005 = 0x5 := by
  refine ⟨offset4k_eq_mod v, ?_, by decide⟩
  rw [offset4k_eq_mod]
  omega

/-- C15: the fixed variants agree with the general function: for a 32-bit `v`,
`align16 v = align_n 16 v`, `align4k v = align_n 4096 v` and
`align32 v = align_n 32 v`; so `align32` rounds down to a multiple of `32`
(it is `v - v mod 32`), not to a multiple of `4`: `align32 0x1F` is `0`,
not `0x1C`. -/
theorem align_fixed_eq_align_n (v : Nat) (hv : v < 2 ^ 32) :
    align16 v = align_n 16 v ∧
    align4k v = align_n 4096 v ∧
    align32 v = align_n 32 v ∧
    align32 v = v - v % 32 ∧
    align32 v % 32 = 0 ∧
    align16 v = v - v % 16 ∧
    align4k v = v - v % 4096 ∧
    align32 0x1F = 0 ∧ align32 0x1F ≠ 0x1F - 0x1F % 4 := by
  have h32 : align32 v = v - v % 32 := by
    rw [align32_eq_align_n]
    exact align_n_pow2_sub 5 v (by decide) hv
  have h16 : align16 v = v - v % 16 := by
    rw [align16_eq_align_n]
    exact align_n_pow2_sub 4 v (by decide) hv
  refine ⟨align16_eq_align_n v, align4k_eq_align_n v, align32_eq_align_n v, h32, ?_, h16,
    align4k_eq_sub v hv, by decide, by decide⟩
  rw [h32]
  omega

/-- Witness for C15 at `v = 0xFFFFFFFF`. -/
theorem align_fixed_eq_align_n_witness :
    align16 0xFFFFFFFF = align_n 16 0xFFFFFFFF ∧
    align4k 0xFFFFFFFF = align_n 4096 0xFFFFFFFF ∧
    align32 0xFFFFFFFF = align_n 32 0xFFFFFFFF ∧
    align32 0xFFFFFFFF = 0xFFFFFFFF - 0xFFFFFFFF % 32 ∧
    align32 0xFFFFFFFF % 32 = 0 ∧
    align16 0xFFFFFFFF = 0xFFFFFFFF - 0xFFFFFFFF % 16 ∧
    align4k 0xFFFFFFFF = 0xFFFFFFFF - 0xFFFFFFFF % 4096 ∧
    align32 0x1F = 0 ∧ align32 0x1F ≠ 0x1F - 0x1F % 4 :=
  align_fixed_eq_align_n 0xFFFFFFFF (by decide)

/-- C16: `log2_of` is a total function; for a 32-bit `v` the shifted value
strictly decreases while it is nonzero, the loop body runs at most `31` times,
the result is at most `31`, and the 8-bit counter never wraps: the result is
the number of iterations.  The bound is reached: `log2_of 0xFFFFFFFF = 31`. -/
theorem log2_of_terminates (v : Nat) (hv : v < 2 ^ 32) :
    (v ≠ 0 → v >>> 1 < v) ∧
    log2_iters v ≤ 31 ∧
    log2_of v ≤ 31 ∧
    log2_of v = log2_iters v ∧
    log2_of v < 256 ∧
    log2_of 0xFFFFFFFF = 31 := by
  have hle := log2_iters_le v hv
  have heq := log2_of_eq_iters v hv
  refine ⟨?_, hle, ?_, heq, ?_, ?_⟩
  · intro h0
    simp only [Nat.shiftRight_eq_div_pow]
    omega
  · omega
  · omega
  · simp [log2_of, log2_loop]

/-- Witness for C16 at `v = 0xFFFFFFFF`. -/
theorem log2_of_terminates_witness :
    (0xFFFFFFFF ≠ 0 → 0xFFFFFFFF >>> 1 < 0xFFFFFFFF) ∧
    log2_iters 0xFFFFFFFF ≤ 31 ∧
    log2_of 0xFFFFFFFF ≤ 31 ∧
    log2_of 0xFFFFFFFF = log2_iters 0xFFFFFFFF ∧
    log2_of 0xFFFFFFFF < 256 ∧
    log2_of 0xFFFFFFFF = 31 :=
  log2_of_terminates 0xFFFFFFFF (by decide)

/-- C17 as stated fails in its last part: the results of the high-byte macros
are sometimes the byte slice of the argument.  At `0` all four are `0`, which
is the byte slice; `U16_HIGH_U8 0x0100` is `1`, the high byte of `0x0100`, and
`U32_B1_U8 0x01000000` is `1`, the top byte of `0x01000000`. -/
theorem high_byte_macros_coincide :
    U16_HIGH_U8 0 = (0 >>> 8) &&& 0xff ∧
    U32_B3_U8 0 = (0 >>> 8) &&& 0xff ∧
    U32_B2_U8 0 = (0 >>> 16) &&& 0xff ∧
    U32_B1_U8 0 = (0 >>> 24) &&& 0xff ∧
    U16_HIGH_U8 0x0100 = (0x0100 >>> 8) &&& 0xff ∧
    U32_B1_U8 0x01000000 = (0x01000000 >>> 24) &&& 0xff ∧
    ¬ (∀ v : Nat, U16_HIGH_U8 v ≠ (v >>> 8) &&& 0xff) := by
  refine ⟨by decide, by decide, by decide, by decide, by decide, by decide, ?_⟩
  intro h
  exact h 0 (by decide)

/-- C17, amended: as written in the source, for every `v`, `U16_HIGH_U8 v` and
`U32_B3_U8 v` are `1` if `v > 8` and `0` otherwise, `U32_B2_U8 v` is `1` if
`v > 16` and `0` otherwise, `U32_B1_U8 v` is `1` if `v > 24` and `0` otherwise;
each result is `0` or `1`, and it is not in general the byte slice of `v`:
at `0x1234` and `0x12345678` every one of them is `1` while the byte slices are
`0x12`, `0x56`, `0x34`, `0x12`. -/
theorem high_byte_macros_compare (v : Nat) :
    U16_HIGH_U8 v = (if v > 8 then 1 else 0) ∧
    U32_B3_U8 v = (if v > 8 then 1 else 0) ∧
    U32_B2_U8 v = (if v > 16 then 1 else 0) ∧
    U32_B1_U8 v = (if v > 24 then 1 else 0) ∧
    U16_HIGH_U8 v ≤ 1 ∧ U32_B3_U8 v ≤ 1 ∧ U32_B2_U8 v ≤ 1 ∧ U32_B1_U8 v ≤ 1 ∧
    U16_HIGH_U8 0x1234 ≠ (0x1234 >>> 8) &&& 0xff ∧
    U32_B3_U8 0x12345678 ≠ (0x12345678 >>> 8) &&& 0xff ∧
    U32_B2_U8 0x12345678 ≠ (0x12345678 >>> 16) &&& 0xff ∧
    U32_B1_U8 0x12345678 ≠ (0x12345678 >>> 24) &&& 0xff := by
  unfold U16_HIGH_U8 U32_B3_U8 U32_B2_U8 U32_B1_U8
  refine ⟨?_, ?_, ?_, ?_, ?_, ?_, ?_, ?_, by decide, by decide, by decide, by decide⟩ <;>
    split <;> decide

/-- C18: the operations of `u32_from_u8` do not all stay within `int`.  For the
bytes `0x80 0 0 0` the shift `b1 << 24` has the value `2^31`, above the largest
`int` `2^31 - 1`; reduced to `int` it is `-2^31`, and the returned `0x80000000`
is obtained only through that wrap-around. -/
theorem u32_from_u8_shift_overflows :
    u32_from_u8_steps 0x80 0 0 0 = [2 ^ 31, 0, 0, -(2 ^ 31), -(2 ^ 31), -(2 ^ 31)] ∧
    (u32_from_u8_steps 0x80 0 0 0).all in_int32 = false ∧
    INT32_MAX < (((0x80 : Nat) <<< 24 : Nat) : Int) ∧
    wrap_int32 (((0x80 : Nat) <<< 24 : Nat) : Int) = -(2 ^ 31) ∧
    u32_from_u8 0x80 0 0 0 = 0x80000000 := by
  decide

/-- C19: for every alignment `a`, power of two or not and `a = 0` included, and
every 32-bit `v`, `align_n a v ≤ v` and `align_n a (align_n a v) = align_n a v`;
the result is again a 32-bit value. -/
theorem align_n_le_idem (a v : Nat) (hv : v < 2 ^ 32) :
    align_n a v ≤ v ∧
    align_n a (align_n a v) = align_n a v ∧
    align_n a v < 2 ^ 32 := by
  have hle : align_n a v ≤ v := Nat.and_le_left
  refine ⟨hle, ?_, by omega⟩
  unfold align_n
  rw [Nat.and_assoc, Nat.and_self]

/-- Witness for C19 at `a = 0`, `v = 0x1005`. -/
theorem align_n_le_idem_witness :
    align_n 0 0x1005 ≤ 0x1005 ∧
    align_n 0 (align_n 0 0x1005) = align_n 0 0x1005 ∧
    align_n 0 0x1005 < 2 ^ 32 :=
  align_n_le_idem 0 0x1005 (by decide)

end TinyUsb
